import Mathlib

/-!
Verification development for the profiling examples.

Shallow embedding of the pure parts of the Go example programs
(`public/concat.go`, `examples/profiling_gcp/profiling_gcp.go`,
`examples/flamegraph/main.go`, `examples/garbage/main.go`) together with
theorems about them.

Conventions.
* A Go `string` is a Lean `String`; `+` on strings is `++`.
* A `for _, s := range xs` loop is a left fold over the list `xs`.
* Go `int` / `int64` values are Lean `Int`s.
-/

namespace Concat

/-- Loop of `strings.Join` after the first element has been written:
`for _, s := range elems[1:] { b.WriteString(sep); b.WriteString(s) }`. -/
def joinLoop (sep : String) (b : String) (rest : List String) : String :=
  rest.foldl (fun acc s => acc ++ sep ++ s) b

/-- Go standard library `strings.Join(elems, sep)`: the empty string for no
elements, the element itself for one element, and otherwise the first element
followed by `sep` and the next element for each remaining element. -/
def stringsJoin (elems : List String) (sep : String) : String :=
  match elems with
  | [] => ""
  | [e] => e
  | e :: rest => joinLoop sep e rest

/-- Source `ConcatenateStrings`: `return strings.Join(parts, "")`. -/
def ConcatenateStrings (parts : List String) : String :=
  stringsJoin parts ""

/-- Source `ConcatenateStringsSlowly`:
`var result string; for _, s := range parts { result += s }; return result`. -/
def ConcatenateStringsSlowly (parts : List String) : String :=
  parts.foldl (fun result s => result ++ s) ""

/-- The concatenation of the elements in order with no separator, written
directly on the characters: all characters of the first element, then all of
the second, and so on. -/
def concatInOrder (parts : List String) : String :=
  ⟨(parts.map String.data).flatten⟩

/-- Benchmark input `input` of `concat_test.go`. -/
def input : List String := ["a", "b", "c", "d", "e", "f", "g", "h", "i", "j"]

end Concat

namespace ProfilingGcp

/-- Observable outcome of running `main`: the lines handed to the logger in
order, and the exit status when the process was terminated by `os.Exit`
(`none` when `main` returned normally). -/
structure Outcome where
  logs : List String
  exitCode : Option Nat
deriving DecidableEq, Repr

/-- A program point either continues with the logs written so far or has
already terminated the process. -/
inductive Step where
  | running (logs : List String)
  | exited (logs : List String) (code : Nat)
deriving DecidableEq, Repr

/-- Go `log.Println(msg)`: writes the line and continues; nothing happens once
the process has exited. -/
def logPrintln (msg : String) : Step → Step
  | .running logs => .running (logs ++ [msg])
  | .exited logs code => .exited logs code

/-- Go `log.Fatalf(format, v)`: "equivalent to Printf followed by a call to
os.Exit(1)". The formatted line is `pre ++ v` for the format `pre%v`. -/
def logFatalf (pre : String) (v : String) : Step → Step
  | .running logs => .exited (logs ++ [pre ++ v]) 1
  | .exited logs code => .exited logs code

/-- Outcome of a finished run. -/
def Step.outcome : Step → Outcome
  | .running logs => ⟨logs, none⟩
  | .exited logs code => ⟨logs, some code⟩

/-- Source `main` of `profiling_gcp.go`. The result of `profiler.Start(cfg)` is
the parameter `startErr`: `none` for a nil error, `some e` for an error whose
`%v` rendering is `e`.
```
if err := profiler.Start(cfg); err != nil {
    log.Fatalf("WARN: Failed to start profiler: %v", err)
}
log.Println("Application started...")
``` -/
def main (startErr : Option String) : Outcome :=
  let s0 : Step := .running []
  let s1 : Step :=
    match startErr with
    | some err => logFatalf "WARN: Failed to start profiler: " err s0
    | none => s0
  let s2 := logPrintln "Application started..." s1
  s2.outcome

end ProfilingGcp

namespace Flamegraph

/-- Source constant `piIterations = 50000`. -/
def piIterations : Int := 50000

/-- Source `calculatePiApprox`, with the `float64` accumulator modelled exactly
in a field `K` (the rationals or the reals):
```
var pi float64
for i := 0; i < iterations; i++ {
    pi += math.Pow(-1, float64(i)) / (2*float64(i) + 1)
}
return pi * 4
```
The loop runs for `i = 0, ..., iterations - 1` and not at all when
`iterations <= 0`. -/
def calculatePiApprox {K : Type} [Field K] (iterations : Int) : K :=
  (List.range iterations.toNat).foldl
    (fun (pi : K) (i : Nat) => pi + (-1 : K) ^ i / (2 * (i : K) + 1)) 0 * 4

/-- Source `validateRequest`:
```
if id < 0 { return false }
result := calculatePiApprox(piIterations)
return result > 0
``` -/
def validateRequest (K : Type) [LinearOrderedField K] (id : Int) : Bool :=
  if id < 0 then false
  else
    let result : K := calculatePiApprox piIterations
    decide (result > 0)

end Flamegraph

namespace Garbage

/-- Go `strconv.Itoa`: decimal rendering of an integer. -/
def itoa (i : Int) : String := toString i

/-- A value boxed into `interface{}` by `createUser`: an `int` or a `string`. -/
inductive Boxed where
  | int (i : Int)
  | str (s : String)
deriving DecidableEq, Repr

/-- Source struct `User`. The map `metadata` is kept as the list of its
entries in insertion order (the inserted keys are pairwise distinct). -/
structure User where
  active : Bool
  id : Int
  isVIP : Bool
  score : Int
  enabled : Bool
  lastLoginMs : Int
  name : String
  tags : List String
  metadata : List (String × Boxed)
deriving DecidableEq, Repr

/-- Source struct `Transaction`. `amount` carries the value of the `float64`;
`metadata` holds the entries of the `map[string]string` stored in it. -/
structure Transaction where
  processed : Bool
  amount : ℚ
  isPending : Bool
  retryCount : Int
  completed : Bool
  timestamp : Int
  id : String
  description : String
  metadata : List (String × String)
deriving DecidableEq, Repr

/-- A byte of a `[]byte`. -/
abbrev Byte := Nat

/-- Source struct `DataProcessor`, restricted to the slices: `users`,
`transactions` and `tempData`. The mutex `mu` only serialises access. The maps
`cache` and `sessionData` are written by `updateCache` and `leakyGoroutine`
alone, which touch none of the three slices, and are left out. -/
structure DataProcessor where
  users : List User
  transactions : List Transaction
  tempData : List (List Byte)
deriving DecidableEq, Repr

/-- The values a call of `processRequest` draws from the environment:
`rand.Intn(1000)`, `time.Now().UnixMilli()`, `rand.Float64() * 1000` and
`time.Now().Unix()`. -/
structure Draws where
  score : Int
  lastLoginMs : Int
  amount : ℚ
  timestamp : Int
deriving DecidableEq, Repr

/-- Source `createUser`:
```
tags := make([]string, 0)
for i := 0; i < 20; i++ { tags = append(tags, "tag_"+Itoa(id)+"_"+Itoa(i)) }
metadata := make(map[string]interface{})
for i := 0; i < 10; i++ {
    key := "key_" + Itoa(i)
    if i%2 == 0 { metadata[key] = i } else { metadata[key] = "value_" + Itoa(i) }
}
return User{id: int64(id), name: "User_" + Itoa(id), active: id%2 == 0,
    isVIP: id%10 == 0, enabled: true, score: ..., lastLoginMs: ..., ...}
``` -/
def createUser (id : Int) (score lastLoginMs : Int) : User :=
  let tags : List String :=
    (List.range 20).foldl
      (fun tags i => tags ++ ["tag_" ++ itoa id ++ "_" ++ itoa i]) []
  let metadata : List (String × Boxed) :=
    (List.range 10).foldl
      (fun metadata i =>
        let key := "key_" ++ itoa i
        if i % 2 = 0 then metadata ++ [(key, Boxed.int i)]
        else metadata ++ [(key, Boxed.str ("value_" ++ itoa i))]) []
  { id := id
    name := "User_" ++ itoa id
    active := Int.tmod id 2 == 0
    isVIP := Int.tmod id 10 == 0
    enabled := true
    score := score
    lastLoginMs := lastLoginMs
    tags := tags
    metadata := metadata }

/-- Source `createTransaction`:
```
desc := ""
for i := 0; i < 10; i++ { desc = desc + "Part" + Itoa(i) + " " }
return Transaction{id: "TX_" + Itoa(id), amount: ..., processed: false,
    isPending: true, completed: false, retryCount: 0, timestamp: ...,
    description: desc,
    metadata: map[string]string{"type": "standard", "category": "online"}}
``` -/
def createTransaction (id : Int) (amount : ℚ) (timestamp : Int) : Transaction :=
  let desc : String :=
    (List.range 10).foldl (fun desc i => desc ++ "Part" ++ itoa i ++ " ") ""
  { id := "TX_" ++ itoa id
    amount := amount
    processed := false
    isPending := true
    completed := false
    retryCount := 0
    timestamp := timestamp
    description := desc
    metadata := [("type", "standard"), ("category", "online")] }

/-- Go `json.Marshal` on a `Transaction`. `encoding/json` encodes a struct as
an object of its exported fields; every field of `Transaction` is unexported,
so the encoding is the two bytes of `{}` and the error is nil. -/
def jsonMarshal (_tx : Transaction) : List Byte := [123, 125]

/-- Source `processTransaction` (the body between `Lock` and `Unlock`):
```
processor.transactions = append(processor.transactions, tx)
data, _ := json.Marshal(tx)
processor.tempData = append(processor.tempData, data)
if len(processor.transactions) > 500 {
    processor.transactions = processor.transactions[len(processor.transactions)-500:]
}
if len(processor.tempData) > 100 {
    processor.tempData = make([][]byte, 0)
}
``` -/
def processTransaction (processor : DataProcessor) (tx : Transaction) : DataProcessor :=
  let transactions := processor.transactions ++ [tx]
  let data := jsonMarshal tx
  let tempData := processor.tempData ++ [data]
  let transactions :=
    if transactions.length > 500 then transactions.drop (transactions.length - 500)
    else transactions
  let tempData := if tempData.length > 100 then [] else tempData
  { processor with transactions := transactions, tempData := tempData }

/-- Source `processRequest`:
```
user := createUser(id)
processor.users = append(processor.users, user)
if len(processor.users) > 1000 { processor.users = processor.users[1:] }
transaction := createTransaction(id)
processTransaction(transaction)
updateCache(id)
report := generateReport(id)
```
`updateCache` writes `processor.cache` only and `generateReport` only reads, so
neither changes the modelled state. -/
def processRequest (processor : DataProcessor) (id : Int) (d : Draws) : DataProcessor :=
  let user := createUser id d.score d.lastLoginMs
  let users := processor.users ++ [user]
  let users := if users.length > 1000 then users.drop 1 else users
  let processor := { processor with users := users }
  let transaction := createTransaction id d.amount d.timestamp
  processTransaction processor transaction

/-- State of the processing loop of `main`: the processor and `requestID`. -/
structure MainState where
  processor : DataProcessor
  requestID : Int
deriving DecidableEq, Repr

/-- State of `main` on entering the processing loop: `users` and
`transactions` are `make(..., 0)`, `tempData` is nil, `requestID := 0`. -/
def initState : MainState :=
  { processor := { users := [], transactions := [], tempData := [] }
    requestID := 0 }

/-- One iteration of the processing loop on a tick:
`requestID++; processRequest(requestID)`. -/
def tick (s : MainState) (d : Draws) : MainState :=
  let requestID := s.requestID + 1
  { processor := processRequest s.processor requestID d
    requestID := requestID }

/-- The state after the first `n` ticks, the `k`-th tick (from 0) drawing
`env k`: `processRequest(1)`, ..., `processRequest(n)` in sequence. -/
def runTicks (env : Nat → Draws) : Nat → MainState
  | 0 => initState
  | n + 1 => tick (runTicks env n) (env n)

/-- The last `k` elements of a list, in the same order. -/
def lastElems {α : Type} (k : Nat) (l : List α) : List α :=
  (l.reverse.take k).reverse

end Garbage

/-! Concatenation -/

namespace Concat

theorem joinLoop_empty_sep (b : String) (rest : List String) :
    joinLoop "" b rest = rest.foldl (fun result s => result ++ s) b := by
  unfold joinLoop
  congr 1
  funext acc s
  rw [String.append_empty]

theorem stringsJoin_empty_sep (parts : List String) :
    stringsJoin parts "" = parts.foldl (fun result s => result ++ s) "" := by
  match parts with
  | [] => rfl
  | [e] => simp [stringsJoin]
  | e :: f :: rest =>
    simp only [stringsJoin, joinLoop_empty_sep, List.foldl_cons, String.empty_append]

theorem foldl_append_data (parts : List String) (b : String) :
    (parts.foldl (fun result s => result ++ s) b).data
      = b.data ++ (parts.map String.data).flatten := by
  induction parts generalizing b with
  | nil => simp
  | cons p ps ih => simp [ih, String.data_append]

/-- C1: for every list of strings (empty list and empty elements included)
`ConcatenateStringsSlowly` returns exactly the string `ConcatenateStrings`
returns, and that string is the concatenation of the elements in order with no
separator; on the benchmark input both return "abcdefghij". -/
theorem concatenate_slowly_eq_concatenate (parts : List String) :
    ConcatenateStringsSlowly parts = ConcatenateStrings parts
      ∧ ConcatenateStrings parts = concatInOrder parts
      ∧ ConcatenateStrings input = "abcdefghij"
      ∧ ConcatenateStringsSlowly input = "abcdefghij" := by
  have h1 : ConcatenateStrings parts = ConcatenateStringsSlowly parts :=
    stringsJoin_empty_sep parts
  have h2 : ConcatenateStringsSlowly parts = concatInOrder parts := by
    apply String.ext
    simp [ConcatenateStringsSlowly, concatInOrder, foldl_append_data]
  refine ⟨h1.symm, h1.trans h2, ?_, ?_⟩
  · decide
  · decide

end Concat

/-! GCP profiling example -/

namespace ProfilingGcp

/-- C2 (code behaviour): whenever `profiler.Start` returns an error, `main`
logs the warning through `log.Fatalf`, the process exits with status 1, and
"Application started..." is never logged. -/
theorem main_start_error_exits (e : String) :
    main (some e) = ⟨["WARN: Failed to start profiler: " ++ e], some 1⟩
      ∧ "Application started..." ∉ (main (some e)).logs := by
  refine ⟨rfl, ?_⟩
  show "Application started..." ∉ ["WARN: Failed to start profiler: " ++ e]
  intro h
  rw [List.mem_singleton] at h
  have hd := congrArg String.data h
  rw [String.data_append] at hd
  simp at hd

end ProfilingGcp

/-! Flamegraph example -/

namespace Flamegraph

theorem foldl_add_range {K : Type} [Field K] (f : Nat → K) (n : Nat) :
    (List.range n).foldl (fun (acc : K) (i : Nat) => acc + f i) 0
      = ∑ i in Finset.range n, f i := by
  induction n with
  | zero => simp
  | succ n ih =>
    rw [List.range_succ, List.foldl_append, ih, Finset.sum_range_succ]
    rfl

theorem calculatePiApprox_natCast {K : Type} [Field K] (n : Nat) :
    calculatePiApprox (K := K) (n : Int)
      = 4 * ∑ i in Finset.range n, (-1 : K) ^ i / (2 * (i : K) + 1) := by
  unfold calculatePiApprox
  rw [Int.toNat_natCast, foldl_add_range (fun i => (-1 : K) ^ i / (2 * (i : K) + 1)),
    mul_comm]

theorem calculatePiApprox_nonpos {K : Type} [Field K] (z : Int) (hz : z ≤ 0) :
    calculatePiApprox (K := K) z = 0 := by
  unfold calculatePiApprox
  rw [Int.toNat_eq_zero.mpr hz]
  simp

/-- Two consecutive Leibniz terms starting at an even index add up to a
positive number. -/
theorem leibniz_pair_pos {K : Type} [LinearOrderedField K] (k : Nat) :
    0 < (-1 : K) ^ (2 * k) / (2 * ((2 * k : Nat) : K) + 1)
      + (-1 : K) ^ (2 * k + 1) / (2 * ((2 * k + 1 : Nat) : K) + 1) := by
  have hk : (0 : K) ≤ (k : K) := Nat.cast_nonneg k
  rw [Even.neg_one_pow (even_two_mul k), Odd.neg_one_pow (odd_two_mul_add_one k)]
  push_cast
  have h1 : (0 : K) < 2 * (2 * (k : K)) + 1 := by linarith
  have h2 : (0 : K) < 2 * (2 * (k : K) + 1) + 1 := by linarith
  rw [neg_div, ← sub_eq_add_neg, sub_pos]
  exact one_div_lt_one_div_of_lt h1 (by linarith)

theorem leibniz_even_nonneg {K : Type} [LinearOrderedField K] (k : Nat) :
    0 ≤ ∑ i in Finset.range (2 * k), (-1 : K) ^ i / (2 * (i : K) + 1) := by
  induction k with
  | zero => simp
  | succ k ih =>
    rw [show 2 * (k + 1) = 2 * k + 1 + 1 by ring, Finset.sum_range_succ,
      Finset.sum_range_succ, add_assoc]
    exact add_nonneg ih (leibniz_pair_pos k).le

theorem leibniz_pos {K : Type} [LinearOrderedField K] (n : Nat) (hn : 1 ≤ n) :
    0 < ∑ i in Finset.range n, (-1 : K) ^ i / (2 * (i : K) + 1) := by
  rcases Nat.even_or_odd' n with ⟨k, hk | hk⟩
  · obtain ⟨j, rfl⟩ : ∃ j, k = j + 1 := ⟨k - 1, by omega⟩
    subst hk
    rw [show 2 * (j + 1) = 2 * j + 1 + 1 by ring, Finset.sum_range_succ,
      Finset.sum_range_succ, add_assoc]
    exact add_pos_of_nonneg_of_pos (leibniz_even_nonneg j) (leibniz_pair_pos j)
  · subst hk
    rw [Finset.sum_range_succ]
    refine add_pos_of_nonneg_of_pos (leibniz_even_nonneg k) ?_
    rw [Even.neg_one_pow (even_two_mul k)]
    have hk : (0 : K) ≤ ((2 * k : Nat) : K) := Nat.cast_nonneg _
    positivity

theorem calculatePiApprox_pos_of_one_le {K : Type} [LinearOrderedField K] (n : Int)
    (hn : 1 ≤ n) : 0 < calculatePiApprox (K := K) n := by
  obtain ⟨m, rfl⟩ : ∃ m : Nat, n = (m : Int) := ⟨n.toNat, by omega⟩
  rw [calculatePiApprox_natCast]
  have hm : 1 ≤ m := by omega
  have := leibniz_pos (K := K) m hm
  linarith

/-- C3: in exact rational arithmetic the value of `calculatePiApprox` is
positive for every `iterations >= 1`, in particular for `piIterations = 50000`,
so `validateRequest id` is true for every `id >= 0` and false for every
`id < 0`. -/
theorem validateRequest_true_iff_nonneg :
    (∀ n : Int, 1 ≤ n → (0 : ℚ) < calculatePiApprox n)
      ∧ (0 : ℚ) < calculatePiApprox piIterations
      ∧ (∀ id : Int, 0 ≤ id → validateRequest ℚ id = true)
      ∧ (∀ id : Int, id < 0 → validateRequest ℚ id = false) := by
  have hpos : (0 : ℚ) < calculatePiApprox piIterations :=
    calculatePiApprox_pos_of_one_le piIterations (by decide)
  refine ⟨fun n hn => calculatePiApprox_pos_of_one_le n hn, hpos, ?_, ?_⟩
  · intro id hid
    unfold validateRequest
    rw [if_neg (not_lt.mpr hid)]
    exact decide_eq_true hpos
  · intro id hid
    unfold validateRequest
    rw [if_pos hid]

/-- The statement of C3 at concrete inputs: three iterations give `52/15`,
request 7 is valid and request -1 is not. -/
theorem validateRequest_true_iff_nonneg_witness :
    (0 : ℚ) < calculatePiApprox 3 ∧ validateRequest ℚ 7 = true
      ∧ validateRequest ℚ (-1) = false :=
  ⟨validateRequest_true_iff_nonneg.1 3 (by decide),
    validateRequest_true_iff_nonneg.2.2.1 7 (by decide),
    validateRequest_true_iff_nonneg.2.2.2 (-1) (by decide)⟩

/-- C6: over the real numbers `calculatePiApprox n` is four times the Leibniz
partial sum of the first `n` terms (and 0 for `n <= 0`); the partial sums
converge to `π / 4` and `calculatePiApprox n` converges to `π`. -/
theorem calculatePiApprox_leibniz_tendsto_pi :
    (∀ n : Nat, calculatePiApprox (K := ℝ) (n : Int)
        = 4 * ∑ i in Finset.range n, (-1 : ℝ) ^ i / (2 * (i : ℝ) + 1))
      ∧ (∀ z : Int, z ≤ 0 → calculatePiApprox (K := ℝ) z = 0)
      ∧ Filter.Tendsto
          (fun n : Nat => ∑ i in Finset.range n, (-1 : ℝ) ^ i / (2 * (i : ℝ) + 1))
          Filter.atTop (nhds (Real.pi / 4))
      ∧ Filter.Tendsto (fun n : Nat => calculatePiApprox (K := ℝ) (n : Int))
          Filter.atTop (nhds Real.pi) := by
  refine ⟨calculatePiApprox_natCast, calculatePiApprox_nonpos,
    Real.tendsto_sum_pi_div_four, ?_⟩
  have h := Real.tendsto_sum_pi_div_four.const_mul 4
  rw [show (4 : ℝ) * (Real.pi / 4) = Real.pi by ring] at h
  refine h.congr ?_
  intro n
  exact (calculatePiApprox_natCast n).symm

end Flamegraph

/-! Garbage example -/

namespace Garbage

theorem lastElems_eq_drop {α : Type} (k : Nat) (l : List α) :
    lastElems k l = l.drop (l.length - k) := by
  unfold lastElems
  rw [← List.rtake_eq_reverse_take_reverse, List.rtake]

theorem processTransaction_users (p : DataProcessor) (tx : Transaction) :
    (processTransaction p tx).users = p.users := rfl

theorem processTransaction_transactions_eq (p : DataProcessor) (tx : Transaction) :
    (processTransaction p tx).transactions
      = if (p.transactions ++ [tx]).length > 500
        then (p.transactions ++ [tx]).drop ((p.transactions ++ [tx]).length - 500)
        else p.transactions ++ [tx] := rfl

theorem processTransaction_tempData_eq (p : DataProcessor) (tx : Transaction) :
    (processTransaction p tx).tempData
      = if (p.tempData ++ [jsonMarshal tx]).length > 100 then []
        else p.tempData ++ [jsonMarshal tx] := rfl

theorem processRequest_users (p : DataProcessor) (id : Int) (d : Draws) :
    (processRequest p id d).users
      = if (p.users ++ [createUser id d.score d.lastLoginMs]).length > 1000
        then (p.users ++ [createUser id d.score d.lastLoginMs]).drop 1
        else p.users ++ [createUser id d.score d.lastLoginMs] := rfl

theorem createUser_id (id score lastLoginMs : Int) :
    (createUser id score lastLoginMs).id = id := rfl

theorem runTicks_requestID (env : Nat → Draws) (n : Nat) :
    (runTicks env n).requestID = (n : Int) := by
  induction n with
  | zero => rfl
  | succ n ih =>
    show (runTicks env n).requestID + 1 = ((n + 1 : Nat) : Int)
    rw [ih]
    push_cast
    rfl

theorem runTicks_user_ids (env : Nat → Draws) (n : Nat) :
    (runTicks env n).processor.users.map User.id
      = (List.range' (n - min n 1000 + 1) (min n 1000)).map (fun k : Nat => (k : Int)) := by
  induction n with
  | zero => rfl
  | succ n ih =>
    have hlen : (runTicks env n).processor.users.length = min n 1000 := by
      have := congrArg List.length ih
      simpa using this
    show (processRequest (runTicks env n).processor ((runTicks env n).requestID + 1)
      (env n)).users.map User.id = _
    rw [processRequest_users, runTicks_requestID]
    simp only [List.length_append, List.length_singleton, hlen]
    by_cases h : n < 1000
    · have hmin : min n 1000 = n := by omega
      have hmin' : min (n + 1) 1000 = n + 1 := by omega
      rw [hmin] at ih ⊢
      rw [if_neg (by omega), hmin', List.map_append, ih, List.range'_concat]
      simp [createUser_id]
      omega
    · have hmin : min n 1000 = 1000 := by omega
      have hmin' : min (n + 1) 1000 = 1000 := by omega
      rw [hmin] at ih ⊢
      rw [if_pos (by omega), hmin', List.map_drop, List.map_append, ih]
      have e1 : n - 1000 + 1 = n - 999 := by omega
      have e2 : n + 1 - 1000 + 1 = n - 999 + 1 := by omega
      rw [e1, e2, List.range'_succ (n - 999) 999]
      simp only [List.map_cons, List.cons_append, List.drop_succ_cons, List.drop_zero,
        List.map_singleton, createUser_id]
      rw [List.range'_concat (n - 999 + 1) 999]
      simp only [List.map_append, List.map_singleton, mul_one]
      congr 2
      push_cast
      omega

/-- C4: starting from the initial empty processor and running
`processRequest(1)`, ..., `processRequest(n)` in sequence, for every `n` the
slice `users` has exactly `min n 1000` elements, their `id` fields are the
request ids `n - min n 1000 + 1, ..., n` in increasing order, and so the length
never exceeds 1000. -/
theorem runTicks_users_last_1000 (env : Nat → Draws) (n : Nat) :
    (runTicks env n).processor.users.length = min n 1000
      ∧ (runTicks env n).processor.users.map User.id
          = (List.range' (n - min n 1000 + 1) (min n 1000)).map (fun k : Nat => (k : Int))
      ∧ (runTicks env n).processor.users.length ≤ 1000 := by
  have hids := runTicks_user_ids env n
  have hlen : (runTicks env n).processor.users.length = min n 1000 := by
    have := congrArg List.length hids
    simpa using this
  exact ⟨hlen, hids, by omega⟩

/-- C5: for every prior list of transactions and every `tx`, after
`processTransaction` the list is the last `min (len old + 1) 500` elements of
`old ++ [tx]` in the same order; its length is at most 500 and its last
element is `tx`. -/
theorem processTransaction_keeps_last_500 (p : DataProcessor) (tx : Transaction) :
    (processTransaction p tx).transactions
        = lastElems (min (p.transactions.length + 1) 500) (p.transactions ++ [tx])
      ∧ (processTransaction p tx).transactions.length ≤ 500
      ∧ (processTransaction p tx).transactions.getLast? = some tx := by
  rw [processTransaction_transactions_eq, lastElems_eq_drop]
  simp only [List.length_append, List.length_singleton]
  by_cases h : p.transactions.length + 1 > 500
  · rw [if_pos h]
    have hmin : min (p.transactions.length + 1) 500 = 500 := by omega
    rw [hmin]
    refine ⟨rfl, ?_, ?_⟩
    · simp only [List.length_drop, List.length_append, List.length_singleton]
      omega
    · rw [List.getLast?_drop]
      simp only [List.length_append, List.length_singleton]
      rw [if_neg (by omega)]
      simp
  · rw [if_neg h]
    have hmin : min (p.transactions.length + 1) 500 = p.transactions.length + 1 := by omega
    rw [hmin]
    refine ⟨by simp, ?_, by simp⟩
    simp only [List.length_append, List.length_singleton]
    omega

/-- C7: for every prior `tempData` of length at most 100 and every `tx`, after
`processTransaction` the length of `tempData` is at most 100: when
`len old + 1 > 100` the new `tempData` is empty, otherwise it is `old` with the
JSON encoding of `tx` appended as its last element. -/
theorem processTransaction_tempData_bounded (p : DataProcessor) (tx : Transaction)
    (hlen : p.tempData.length ≤ 100) :
    (processTransaction p tx).tempData.length ≤ 100
      ∧ (p.tempData.length + 1 > 100 → (processTransaction p tx).tempData = [])
      ∧ (¬ p.tempData.length + 1 > 100 →
          (processTransaction p tx).tempData = p.tempData ++ [jsonMarshal tx]) := by
  rw [processTransaction_tempData_eq]
  simp only [List.length_append, List.length_singleton]
  by_cases h : p.tempData.length + 1 > 100
  · rw [if_pos h]
    exact ⟨by simp, fun _ => rfl, fun h' => absurd h h'⟩
  · rw [if_neg h]
    refine ⟨?_, fun h' => absurd h' h, fun _ => rfl⟩
    simp only [List.length_append, List.length_singleton]
    omega

/-- The statement of C7 at two concrete processors: on the initial processor
the encoding `{}` of the transaction is appended, and on a processor holding
100 entries the slice is emptied. -/
theorem processTransaction_tempData_bounded_witness :
    (processTransaction initState.processor (createTransaction 1 0 0)).tempData
        = [[123, 125]]
      ∧ (processTransaction ⟨[], [], List.replicate 100 [123, 125]⟩
          (createTransaction 1 0 0)).tempData = [] :=
  ⟨(processTransaction_tempData_bounded initState.processor (createTransaction 1 0 0)
      (by decide)).2.2 (by decide),
    (processTransaction_tempData_bounded ⟨[], [], List.replicate 100 [123, 125]⟩
      (createTransaction 1 0 0) (by simp)).2.1 (by simp)⟩

end Garbage
